import Mathlib

/-
  Shallow embedding of instantiate.py (eldridgejm/instantiate).

  The repository scaffolds a project directory from a template directory:
  it infers the next zero-padded project number from sibling directories,
  copies the template tree, and renders every non-skipped file in place
  with a strict-undefined template engine.

  Modelling conventions:
  - A directory tree is a list of FNode values; file contents are Template
    values (a pre-parsed template: literal runs and variable references).
    Sibling order is kept; real filesystems also guarantee unique sibling
    names, which the model does not need to assume for the theorems below.
  - The external template engine (jinja2 with StrictUndefined) is modelled
    from the spec, section 4.3: rendering is a left-to-right fold that
    fails on the first reference to a value not present in the mapping.
  - fnmatch-style glob matching and Python int/str/format are external
    stdlib capabilities and are modelled directly; digits are ASCII 0-9.
  - Loops (the BFS work queue of replace, glob matching, decimal digit
    extraction) are written with an explicit fuel argument so that every
    definition is executable by kernel reduction.  The fuel passed by the
    wrappers is a bound on the loop measure, computed in a comment at the
    definition, so the fuel case is never reached on the wrapped calls.
-/

/-- Values available to templates: the two-level variable mapping of the
spec (section 3), Python None, strings, and lists. -/
inductive Value where
  | str (s : String)
  | none
  | dict (entries : List (String × Value))
  | list (elems : List Value)

/-- One parsed template item: a literal run of text, or a variable
reference with a chain of attribute/key accesses, as in a.b.c. -/
inductive Item where
  | lit (s : String)
  | var (path : List String)
deriving DecidableEq

/-- A parsed template is a sequence of items. -/
abbrev Template := List Item

/-- Modelled from the spec: strict lookup of a dotted reference in the
variable mapping (jinja2 StrictUndefined semantics, spec section 4.3).
Any missing key or access into a non-mapping fails. -/
def lookupVar (v : Value) : List String → Except String Value
  | [] => Except.ok v
  | k :: rest =>
    match v with
    | Value.dict entries =>
      match entries.find? (fun e => e.1 == k) with
      | some e => lookupVar e.2 rest
      | Option.none => Except.error (k ++ " is undefined")
    | _ => Except.error (k ++ " is undefined")

/-- Modelled from the spec: Python str() of a rendered value.  The claims
only ever render strings and None; str() of containers is abstracted. -/
def valueToString : Value → String
  | Value.str s => s
  | Value.none => "None"
  | Value.dict _ => "<dict>"
  | Value.list _ => "<list>"

/-- Modelled from the spec: the external template engine (spec section
4.3).  Left-to-right evaluation; fails on the first undefined reference,
never substituting a blank. -/
def renderTemplate (tpl : Template) (vars : Value) : Except String String :=
  match tpl with
  | [] => Except.ok ""
  | Item.lit s :: rest => (renderTemplate rest vars).map (fun r => s ++ r)
  | Item.var p :: rest =>
    match lookupVar vars p with
    | Except.error e => Except.error e
    | Except.ok v => (renderTemplate rest vars).map (fun r => valueToString v ++ r)

/-- A node of a directory tree: a file with parsed template contents, or a
directory with children. -/
inductive FNode where
  | file (name : String) (content : Template)
  | dir (name : String) (children : List FNode)

/-- The base name of a tree node. -/
def FNode.name : FNode → String
  | FNode.file n _ => n
  | FNode.dir n _ => n

/-- Whether a node is a directory (pathlib is_dir). -/
def FNode.isDir : FNode → Bool
  | FNode.file _ _ => false
  | FNode.dir _ _ => true

/-- First child with the given base name (unique on a real filesystem). -/
def getChild (cs : List FNode) (n : String) : Option FNode :=
  cs.find? (fun c => c.name == n)

/-- Resolve a relative path (list of components) to a node. -/
def findNode (cs : List FNode) : List String → Option FNode
  | [] => Option.none
  | n :: ns =>
    match getChild cs n with
    | Option.none => Option.none
    | some c =>
      if ns.isEmpty then some c
      else
        match c with
        | FNode.dir _ kids => findNode kids ns
        | FNode.file _ _ => Option.none

/-- Contents of the file at a path, if the path names a file. -/
def getContent (cs : List FNode) (p : List String) : Option Template :=
  match findNode cs p with
  | some (FNode.file _ t) => some t
  | _ => Option.none

/-- Overwrite the contents of the file at a path; directories and missing
paths are left unchanged (writes in the program always hit existing
files, since rendering is in place). -/
def setContent (cs : List FNode) (p : List String) (t : Template) : List FNode :=
  match p with
  | [] => cs
  | n :: ns =>
    cs.map (fun c =>
      if c.name == n then
        if ns.isEmpty then
          match c with
          | FNode.file _ _ => FNode.file n t
          | d => d
        else
          match c with
          | FNode.dir _ kids => FNode.dir n (setContent kids ns t)
          | f => f
      else c)

/-- Render a relative path the way it appears in messages. -/
def pathStr (p : List String) : String := String.intercalate "/" p

/-- Scan a glob character class body up to the closing bracket; returns
the body and the rest of the pattern, or nothing when unclosed. -/
def parseClassBody : List Char → Option (List Char × List Char)
  | [] => Option.none
  | c :: cs =>
    if c == ']' then some ([], cs)
    else (parseClassBody cs).map (fun r => (c :: r.1, r.2))

/-- Parse a glob character class after the opening bracket: an optional
negation, with a leading closing bracket taken literally. -/
def parseClass (ps : List Char) : Option (Bool × List Char × List Char) :=
  let st := match ps with
    | '!' :: rest => (true, rest)
    | _ => (false, ps)
  match st.2 with
  | ']' :: rest => (parseClassBody rest).map (fun r => (st.1, ']' :: r.1, r.2))
  | _ => (parseClassBody st.2).map (fun r => (st.1, r.1, r.2))

/-- Membership of a character in a class body, with a-b ranges. -/
def memClass : List Char → Char → Bool
  | a :: '-' :: b :: rest, c => (a ≤ c && c ≤ b) || memClass rest c
  | a :: rest, c => (a == c) || memClass rest c
  | [], _ => false

/-- Modelled from the spec: shell-glob matching of fnmatch.fnmatch (spec
section 4.2), case-sensitive as on POSIX.  Every recursive call strictly
shrinks the combined length of pattern and string, so the fuel passed by
fnmatch below is never exhausted. -/
def globMatchFuel : Nat → List Char → List Char → Bool
  | 0, _, _ => false
  | _ + 1, [], s => s.isEmpty
  | f + 1, '*' :: ps, s =>
    (match s with
     | [] => globMatchFuel f ps []
     | _ :: cs2 => globMatchFuel f ps s || globMatchFuel f ('*' :: ps) cs2)
  | f + 1, '?' :: ps, s =>
    (match s with
     | [] => false
     | _ :: cs2 => globMatchFuel f ps cs2)
  | f + 1, '[' :: ps, s =>
    (match parseClass ps, s with
     | some r, c :: cs2 => (r.1 != memClass r.2.1 c) && globMatchFuel f r.2.2 cs2
     | some _, [] => false
     | Option.none, c :: cs2 => ('[' == c) && globMatchFuel f ps cs2
     | Option.none, [] => false)
  | f + 1, p :: ps, s =>
    (match s with
     | [] => false
     | c :: cs2 => (p == c) && globMatchFuel f ps cs2)

/-- fnmatch.fnmatch(name, pat): the fuel bound is the combined length
plus one, which the recursion never exhausts. -/
def fnmatch (name pat : String) : Bool :=
  globMatchFuel (pat.data.length + name.data.length + 1) pat.data name.data

/-- instantiate.py, replace._should_be_skipped: a name is skipped when it
matches any pattern of no_replace. -/
def shouldBeSkipped (name : String) (patterns : List String) : Bool :=
  patterns.any (fun pat => fnmatch name pat)

/-- instantiate.py, render: read the template at src, open dst for
writing (which truncates it immediately), then render; on an undefined
variable the failure is re-raised as RuntimeError naming src and the
cause, and dst is left truncated. -/
def render (tree : List FNode) (src dst : List String) (vars : Value) :
    List FNode × Option String :=
  match getContent tree src with
  | Option.none => (tree, some ("No such file: " ++ pathStr src))
  | some tpl =>
    let tree1 := setContent tree dst []
    match renderTemplate tpl vars with
    | Except.error e =>
      (tree1, some ("Problem replacing in " ++ pathStr src ++ ": " ++ e))
    | Except.ok out => (setContent tree1 dst [Item.lit out], none)

/-- instantiate.py, replace: the body of the BFS while-loop for one popped
directory — iterate over the children captured at enqueue time (the
directory structure never changes during replace, only file contents),
skipping matching names, rendering files in place, and collecting
subdirectories to enqueue.  A render failure propagates at once. -/
def processChildren (vars : Value) (patterns : List String) (dirPath : List String) :
    List FNode → List FNode → List FNode × List (List String × List FNode) × Option String
  | [], tree => (tree, [], Option.none)
  | c :: cs, tree =>
    if shouldBeSkipped c.name patterns then
      processChildren vars patterns dirPath cs tree
    else
      match c with
      | FNode.file n _ =>
        match render tree (dirPath ++ [n]) (dirPath ++ [n]) vars with
        | (tree2, some e) => (tree2, [], some e)
        | (tree2, Option.none) => processChildren vars patterns dirPath cs tree2
      | FNode.dir n kids =>
        let r := processChildren vars patterns dirPath cs tree
        (r.1, (dirPath ++ [n], kids) :: r.2.1, r.2.2)

/-- Total size of a forest, counting every node. -/
def nodesSize : List FNode → Nat
  | [] => 0
  | FNode.file _ _ :: cs => 1 + nodesSize cs
  | FNode.dir _ kids :: cs => 1 + nodesSize kids + nodesSize cs

/-- instantiate.py, replace: the BFS while-loop over the work queue of
(path, children) entries.  Each iteration strictly decreases the measure
(sum over the queue of one plus the subtree size), since the entries a
popped directory contributes are built from strictly smaller subtrees;
so the fuel passed by replace below is never exhausted. -/
def replaceLoop (vars : Value) (patterns : List String) :
    Nat → List (List String × List FNode) → List FNode → List FNode × Option String
  | 0, _, tree => (tree, Option.none)
  | _ + 1, [], tree => (tree, Option.none)
  | f + 1, (path, cs) :: rest, tree =>
    match processChildren vars patterns path cs tree with
    | (tree2, _, some e) => (tree2, some e)
    | (tree2, es, Option.none) => replaceLoop vars patterns f (rest ++ es) tree2

/-- instantiate.py, replace: render all non-skipped files under a
directory in place, breadth-first.  The fuel is one plus the size of the
tree, which bounds the number of loop iterations (each iteration strictly
decreases the sum over the queue of one plus the subtree sizes), so the
loop always drains its queue. -/
def replace (tree : List FNode) (vars : Value) (no_replace : Option (List String)) :
    List FNode × Option String :=
  let patterns := no_replace.getD []
  replaceLoop vars patterns (nodesSize tree + 1) [([], tree)] tree

/-- instantiate.py, _starts_with_k_digits: true iff the name has at least
k characters and its first k characters are all decimal digits. -/
def _starts_with_k_digits (s : String) (k : Nat) : Bool :=
  if s.data.length < k then false
  else (s.data.take k).all Char.isDigit

/-- Modelled from the spec: Python int() on a slice of decimal digits.
int of the empty string raises ValueError. -/
def pyIntOfDigits (cs : List Char) : Except String Nat :=
  if cs.isEmpty then Except.error "invalid literal for int with base 10"
  else Except.ok (cs.foldl (fun acc c => acc * 10 + (c.toNat - 48)) 0)

/-- Decimal digits of n, least significant first; fuel-driven (each step
divides n by ten, and n itself is a sufficient fuel bound). -/
def natDigitsAux : Nat → Nat → List Char
  | 0, _ => []
  | _ + 1, 0 => []
  | f + 1, n + 1 => Char.ofNat (48 + (n + 1) % 10) :: natDigitsAux f ((n + 1) / 10)

/-- Modelled from the spec: Python str() of a non-negative integer. -/
def pyNatRepr (n : Nat) : String :=
  if n = 0 then "0" else String.mk (natDigitsAux n n).reverse

/-- Modelled from the spec: Python format(n, "0k") — left-pad the decimal
representation with zeros to a minimum width of k characters. -/
def pyFormatZeroPad (n k : Nat) : String :=
  if (pyNatRepr n).length < k then
    String.mk (List.replicate (k - (pyNatRepr n).length) '0') ++ pyNatRepr n
  else pyNatRepr n

/-- instantiate.py, infer_next_project_number: with no width, numbering is
disabled; otherwise take the immediate children that are directories
whose names start with k digits, parse the k-character slices with int()
(which raises on an empty slice), and format the maximum plus one, or
one when none qualify, zero-padded to width k. -/
def infer_next_project_number (children : List FNode) (k : Option Nat) :
    Except String (Option String) :=
  match k with
  | Option.none => Except.ok Option.none
  | some k =>
    match (((children.filter FNode.isDir).map FNode.name).filter
        (fun n => _starts_with_k_digits n k)).mapM
        (fun n => pyIntOfDigits (n.data.take k)) with
    | Except.error e => Except.error e
    | Except.ok numbers =>
      Except.ok (some (pyFormatZeroPad
        (if numbers.isEmpty then 1 else numbers.foldl Nat.max 0 + 1) k))

/-- instantiate.py, make_project: the destination directory name — the
number joined to the project name by a dash when numbering produced a
number, else the bare project name. -/
def destinationName (project_number : Option String) (project_name : String) : String :=
  match project_number with
  | some n => n ++ "-" ++ project_name
  | Option.none => project_name

/-- Whether a directory has an immediate child with the given name. -/
def existsName (cs : List FNode) (n : String) : Bool :=
  cs.any (fun c => c.name == n)

/-- shutil.rmtree of the child with the given name. -/
def removeName (cs : List FNode) (n : String) : List FNode :=
  cs.filter (fun c => c.name != n)

/-- The Python exceptions make_project can raise: ValueError (missing
template, or int() failure inside number inference), FileExistsError
(from shutil.copytree), RuntimeError (a rendering failure). -/
inductive PyErr where
  | valueError (msg : String)
  | fileExistsError (dst : String)
  | runtimeError (msg : String)
deriving DecidableEq

/-- The project/context variable for a project number that may be absent. -/
def optStrValue : Option String → Value
  | some s => Value.str s
  | Option.none => Value.none

/-- instantiate.py, make_project: validate the template, infer the number,
form the destination, copy the template tree (failing loudly when the
destination exists), and render in place.  The state is the list of
children of cwd; the template directory is passed as its children, or
nothing when it does not exist. -/
def make_project (cwd : List FNode) (template : Option (List FNode))
    (project_name : String) (context : Option Value) (numbering : Option Nat)
    (no_replace : Option (List String)) : List FNode × Option PyErr :=
  match template with
  | Option.none => (cwd, some (PyErr.valueError "Template does not exist."))
  | some tmplChildren =>
    let ctx := context.getD (Value.dict [])
    match infer_next_project_number cwd numbering with
    | Except.error e => (cwd, some (PyErr.valueError e))
    | Except.ok project_number =>
      let dst_name := destinationName project_number project_name
      if existsName cwd dst_name then (cwd, some (PyErr.fileExistsError dst_name))
      else
        let vars := Value.dict
          [("context", ctx),
           ("project", Value.dict
             [("number", optStrValue project_number),
              ("name", Value.str project_name)])]
        match replace tmplChildren vars no_replace with
        | (children2, Option.none) =>
          (cwd ++ [FNode.dir dst_name children2], Option.none)
        | (children2, some e) =>
          (cwd ++ [FNode.dir dst_name children2], some (PyErr.runtimeError e))

/-- How one invocation of the command line interface ends. -/
inductive CliOutcome where
  | ok
  | printedExistsMessage
  | raised (e : PyErr)
deriving DecidableEq

/-- instantiate.py, cli: run make_project; on FileExistsError print a
message and exit normally; on any other exception, remove cwd joined
with the bare project name when that path exists, then re-raise.
Argument parsing and YAML loading are glue and are elided. -/
def cli (cwd : List FNode) (template : Option (List FNode)) (project_name : String)
    (numbering : Option Nat) (context : Option Value)
    (no_replace : Option (List String)) : List FNode × CliOutcome :=
  match make_project cwd template project_name context numbering no_replace with
  | (fs, Option.none) => (fs, CliOutcome.ok)
  | (fs, some (PyErr.fileExistsError _)) => (fs, CliOutcome.printedExistsMessage)
  | (fs, some e) =>
    if existsName fs project_name then (removeName fs project_name, CliOutcome.raised e)
    else (fs, CliOutcome.raised e)

/-- Claim-side (C3): the parsed k-character numeric values of the
qualifying children — immediate children that are directories and whose
names have at least k characters, all decimal digits. -/
def claimQualNums (children : List FNode) (k : Nat) : List Nat :=
  (children.filter (fun c =>
      c.isDir && decide (k ≤ c.name.data.length) && (c.name.data.take k).all Char.isDigit)).map
    (fun c => (c.name.data.take k).foldl (fun acc ch => acc * 10 + (ch.toNat - 48)) 0)

/-- Claim-side (C3): the next number — the maximum qualifying value plus
one, or one when no child qualifies. -/
def claimNextNumber (children : List FNode) (k : Nat) : Nat :=
  if (claimQualNums children k).isEmpty then 1
  else (claimQualNums children k).foldl Nat.max 0 + 1


/-! Lemmas: Path lookup and update lemmas -/

/-- getChild finds an element with the requested name. -/
theorem getChild_name {cs : List FNode} {n : String} {c : FNode}
    (h : getChild cs n = some c) : c.name = n := by
  induction cs with
  | nil => simp [getChild] at h
  | cons d ds ih =>
    by_cases hd : d.name == n
    · simp only [getChild, List.find?, hd] at h
      cases h
      exact eq_of_beq hd
    · simp only [getChild, List.find?, hd] at h
      exact ih h

/-- getChild commutes with mapping a name-preserving function. -/
theorem getChild_map (g : FNode → FNode) (hg : ∀ c, (g c).name = c.name)
    (cs : List FNode) (n : String) :
    getChild (cs.map g) n = (getChild cs n).map g := by
  induction cs with
  | nil => rfl
  | cons d ds ih =>
    simp only [List.map, getChild, List.find?, hg d]
    by_cases hd : d.name == n
    · simp [hd]
    · simp only [hd]
      exact ih

/-- The per-node update performed by setContent preserves names. -/
theorem setContent_updater_name (w0 : String) (ws : List String) (t : Template) :
    ∀ c : FNode,
      ((fun c => if c.name == w0 then
          if ws.isEmpty then
            match c with
            | FNode.file _ _ => FNode.file w0 t
            | d => d
          else
            match c with
            | FNode.dir _ kids => FNode.dir w0 (setContent kids ws t)
            | f => f
        else c) c).name = c.name := by
  intro c
  by_cases h : c.name == w0
  · have hn : c.name = w0 := eq_of_beq h
    cases c with
    | file n tc =>
      simp only [FNode.name] at hn
      subst hn
      cases ws <;> simp [FNode.name]
    | dir n kids =>
      simp only [FNode.name] at hn
      subst hn
      cases ws <;> simp [FNode.name]
  · simp [h]

/-- setContent on a nonempty path is a map of the per-node update. -/
theorem setContent_cons (cs : List FNode) (w0 : String) (ws : List String) (t : Template) :
    setContent cs (w0 :: ws) t =
      cs.map (fun c => if c.name == w0 then
          if ws.isEmpty then
            match c with
            | FNode.file _ _ => FNode.file w0 t
            | d => d
          else
            match c with
            | FNode.dir _ kids => FNode.dir w0 (setContent kids ws t)
            | f => f
        else c) := rfl

/-- Looking up the empty path yields nothing. -/
theorem getContent_nil (cs : List FNode) : getContent cs [] = Option.none := rfl

/-- Lookup below a missing child yields nothing. -/
theorem getContent_cons_none {cs : List FNode} {n : String} (ns : List String)
    (h : getChild cs n = Option.none) : getContent cs (n :: ns) = Option.none := by
  unfold getContent findNode
  rw [h]

/-- Lookup of a one-component path naming a file child returns its content. -/
theorem getContent_singleton_file {cs : List FNode} {n m : String} {tc : Template}
    (h : getChild cs n = some (FNode.file m tc)) : getContent cs [n] = some tc := by
  unfold getContent findNode
  rw [h]
  rfl

/-- Lookup of a one-component path naming a directory child yields nothing. -/
theorem getContent_singleton_dir {cs : List FNode} {n m : String} {kids : List FNode}
    (h : getChild cs n = some (FNode.dir m kids)) : getContent cs [n] = Option.none := by
  unfold getContent findNode
  rw [h]
  rfl

/-- A longer path below a file child yields nothing. -/
theorem getContent_cons_file {cs : List FNode} {n m : String} {tc : Template}
    (r : String) (rs : List String) (h : getChild cs n = some (FNode.file m tc)) :
    getContent cs (n :: r :: rs) = Option.none := by
  unfold getContent findNode
  rw [h]
  rfl

/-- A longer path below a directory child recurses into its children. -/
theorem getContent_cons_dir {cs : List FNode} {n m : String} {kids : List FNode}
    (r : String) (rs : List String) (h : getChild cs n = some (FNode.dir m kids)) :
    getContent cs (n :: r :: rs) = getContent kids (r :: rs) := by
  unfold getContent findNode
  rw [h]
  rfl

/-- Trees agreeing on one child agree on lookups through it. -/
theorem getContent_congr_child {cs1 cs2 : List FNode} {n : String} (rs : List String)
    (h : getChild cs1 n = getChild cs2 n) :
    getContent cs1 (n :: rs) = getContent cs2 (n :: rs) := by
  unfold getContent findNode
  rw [h]

/-- Writing at one path leaves the content at any other path unchanged. -/
theorem getContent_setContent_ne :
    ∀ (r w : List String) (cs : List FNode) (t : Template), r ≠ w →
      getContent (setContent cs w t) r = getContent cs r := by
  intro r
  induction r with
  | nil => intro w cs t _; rfl
  | cons rn rs ih =>
    intro w cs t hne
    cases w with
    | nil => rfl
    | cons wn ws =>
      have hgc : getChild (setContent cs (wn :: ws) t) rn =
          (getChild cs rn).map (fun c => if c.name == wn then
            if ws.isEmpty then
              match c with
              | FNode.file _ _ => FNode.file wn t
              | d => d
            else
              match c with
              | FNode.dir _ kids => FNode.dir wn (setContent kids ws t)
              | f => f
          else c) := by
        rw [setContent_cons]
        exact getChild_map _ (setContent_updater_name wn ws t) cs rn
      cases hc : getChild cs rn with
      | none =>
        rw [getContent_cons_none rs (by rw [hgc, hc]; rfl), getContent_cons_none rs hc]
      | some c =>
        have hcn : c.name = rn := getChild_name hc
        by_cases hrw : rn = wn
        · subst hrw
          cases c with
          | file m tc =>
            have hm : m = rn := by simpa [FNode.name] using hcn
            subst hm
            cases ws with
            | nil =>
              cases rs with
              | nil => exact absurd rfl hne
              | cons r1 rs1 =>
                have hset : getChild (setContent cs [m] t) m = some (FNode.file m t) := by
                  rw [hgc, hc]
                  simp [FNode.name]
                rw [getContent_cons_file r1 rs1 hset, getContent_cons_file r1 rs1 hc]
            | cons w1 ws1 =>
              have hset : getChild (setContent cs (m :: w1 :: ws1) t) m =
                  some (FNode.file m tc) := by
                rw [hgc, hc]
                simp [FNode.name]
              exact getContent_congr_child rs (hset.trans hc.symm)
          | dir m kids =>
            have hm : m = rn := by simpa [FNode.name] using hcn
            subst hm
            cases ws with
            | nil =>
              have hset : getChild (setContent cs [m] t) m = some (FNode.dir m kids) := by
                rw [hgc, hc]
                simp [FNode.name]
              exact getContent_congr_child rs (hset.trans hc.symm)
            | cons w1 ws1 =>
              have hset : getChild (setContent cs (m :: w1 :: ws1) t) m =
                  some (FNode.dir m (setContent kids (w1 :: ws1) t)) := by
                rw [hgc, hc]
                simp [FNode.name]
              cases rs with
              | nil =>
                rw [getContent_singleton_dir hset, getContent_singleton_dir hc]
              | cons r1 rs1 =>
                rw [getContent_cons_dir r1 rs1 hset, getContent_cons_dir r1 rs1 hc]
                refine ih (w1 :: ws1) kids t ?_
                intro hcontra
                exact hne (by rw [hcontra])
        · have hset : getChild (setContent cs (wn :: ws) t) rn = some c := by
            rw [hgc, hc]
            simp [hcn, hrw]
          exact getContent_congr_child rs (hset.trans hc.symm)

/-- Writing at a path that names an existing file stores the new content. -/
theorem getContent_setContent_self :
    ∀ (w : List String) (cs : List FNode) (t tpl : Template),
      getContent cs w = some tpl → getContent (setContent cs w t) w = some t := by
  intro w
  induction w with
  | nil => intro cs t tpl h; exact absurd h (by simp [getContent_nil])
  | cons wn ws ih =>
    intro cs t tpl h
    have hgc : getChild (setContent cs (wn :: ws) t) wn =
        (getChild cs wn).map (fun c => if c.name == wn then
          if ws.isEmpty then
            match c with
            | FNode.file _ _ => FNode.file wn t
            | d => d
          else
            match c with
            | FNode.dir _ kids => FNode.dir wn (setContent kids ws t)
            | f => f
        else c) := by
      rw [setContent_cons]
      exact getChild_map _ (setContent_updater_name wn ws t) cs wn
    cases hc : getChild cs wn with
    | none =>
      rw [getContent_cons_none ws hc] at h
      exact absurd h (by simp)
    | some c =>
      have hcn : c.name = wn := getChild_name hc
      cases c with
      | file m tc =>
        have hm : m = wn := by simpa [FNode.name] using hcn
        subst hm
        cases ws with
        | nil =>
          have hset : getChild (setContent cs [m] t) m = some (FNode.file m t) := by
            rw [hgc, hc]
            simp [FNode.name]
          exact getContent_singleton_file hset
        | cons w1 ws1 =>
          rw [getContent_cons_file w1 ws1 hc] at h
          exact absurd h (by simp)
      | dir m kids =>
        have hm : m = wn := by simpa [FNode.name] using hcn
        subst hm
        cases ws with
        | nil =>
          rw [getContent_singleton_dir hc] at h
          exact absurd h (by simp)
        | cons w1 ws1 =>
          have hset : getChild (setContent cs (m :: w1 :: ws1) t) m =
              some (FNode.dir m (setContent kids (w1 :: ws1) t)) := by
            rw [hgc, hc]
            simp [FNode.name]
          rw [getContent_cons_dir w1 ws1 hset]
          rw [getContent_cons_dir w1 ws1 hc] at h
          exact ih kids t tpl h

/-! Lemmas: Rendering lemmas -/

/-- A template mentioning an undefined reference fails to render. -/
theorem renderTemplate_error_of_mem :
    ∀ (tpl : Template) (vars : Value) (p : List String) (m : String),
      Item.var p ∈ tpl → lookupVar vars p = Except.error m →
      ∃ cause, renderTemplate tpl vars = Except.error cause := by
  intro tpl vars p m hmem hlk
  induction tpl with
  | nil => cases hmem
  | cons it rest ih =>
    cases it with
    | lit s =>
      have hmem2 : Item.var p ∈ rest := by
        cases hmem with
        | tail _ h => exact h
      obtain ⟨cause, hcause⟩ := ih hmem2
      exact ⟨cause, by simp [renderTemplate, hcause, Except.map]⟩
    | var q =>
      cases hq : lookupVar vars q with
      | error e => exact ⟨e, by simp [renderTemplate, hq]⟩
      | ok v =>
        have hmem2 : Item.var p ∈ rest := by
          cases hmem with
          | head => rw [hq] at hlk; cases hlk
          | tail _ h => exact h
        obtain ⟨cause, hcause⟩ := ih hmem2
        exact ⟨cause, by simp [renderTemplate, hq, hcause, Except.map]⟩

/-- What render does when the template engine fails: the destination has
already been truncated by opening it for writing, and the failure is
re-raised with a message naming the source file and the cause. -/
theorem render_error_eq {tree : List FNode} {src dst : List String} {vars : Value}
    {tpl : Template} {cause : String}
    (hsrc : getContent tree src = some tpl)
    (herr : renderTemplate tpl vars = Except.error cause) :
    render tree src dst vars =
      (setContent tree dst [],
       some ("Problem replacing in " ++ pathStr src ++ ": " ++ cause)) := by
  unfold render
  rw [hsrc]
  simp only [herr]

/-- What render does when the template engine succeeds. -/
theorem render_ok_eq {tree : List FNode} {src dst : List String} {vars : Value}
    {tpl : Template} {out : String}
    (hsrc : getContent tree src = some tpl)
    (hok : renderTemplate tpl vars = Except.ok out) :
    render tree src dst vars =
      (setContent (setContent tree dst []) dst [Item.lit out], Option.none) := by
  unfold render
  rw [hsrc]
  simp only [hok]

/-- What render does when the source file is missing. -/
theorem render_missing_eq {tree : List FNode} {src dst : List String} {vars : Value}
    (hsrc : getContent tree src = Option.none) :
    render tree src dst vars = (tree, some ("No such file: " ++ pathStr src)) := by
  unfold render
  rw [hsrc]

/-- Rendering src into dst does not change content elsewhere. -/
theorem render_fst_preserves_ne {tree : List FNode} {src dst : List String}
    {vars : Value} (r : List String) (hne : r ≠ dst) :
    getContent (render tree src dst vars).1 r = getContent tree r := by
  cases hsrc : getContent tree src with
  | none => rw [render_missing_eq hsrc]
  | some tpl =>
    cases hrt : renderTemplate tpl vars with
    | error e =>
      rw [render_error_eq hsrc hrt]
      exact getContent_setContent_ne r dst _ _ hne
    | ok out =>
      rw [render_ok_eq hsrc hrt]
      rw [show ((setContent (setContent tree dst []) dst [Item.lit out], Option.none) :
            List FNode × Option String).1 = setContent (setContent tree dst []) dst [Item.lit out] from rfl]
      rw [getContent_setContent_ne r dst _ _ hne, getContent_setContent_ne r dst _ _ hne]

/-! Lemmas: Traversal pruning lemmas -/

/-- Shape analysis: a path of the form qp plus one component equals
p plus a distinguished component nm plus a suffix only when qp already
passes through the distinguished component, or qp is exactly p and the
final component is nm with empty suffix. -/
theorem append_singleton_eq_cases :
    ∀ (p qp : List String) (nm n : String) (q : List String),
      qp ++ [n] = p ++ nm :: q →
      (∃ t, qp = p ++ nm :: t) ∨ (qp = p ∧ n = nm ∧ q = []) := by
  intro p
  induction p with
  | nil =>
    intro qp nm n q h
    cases qp with
    | nil =>
      simp only [List.nil_append] at h
      obtain ⟨h1, h2⟩ := List.cons.injEq .. ▸ h
      exact Or.inr ⟨rfl, h1, h2.symm⟩
    | cons a qp2 =>
      simp only [List.cons_append, List.nil_append] at h
      obtain ⟨h1, h2⟩ := List.cons.injEq .. ▸ h
      exact Or.inl ⟨qp2, by rw [h1, List.nil_append]⟩
  | cons x p2 ih =>
    intro qp nm n q h
    cases qp with
    | nil =>
      simp only [List.nil_append, List.cons_append] at h
      obtain ⟨h1, h2⟩ := List.cons.injEq .. ▸ h
      exact absurd h2.symm (by simp)
    | cons a qp2 =>
      simp only [List.cons_append] at h
      obtain ⟨h1, h2⟩ := List.cons.injEq .. ▸ h
      cases ih qp2 nm n q h2 with
      | inl hl =>
        obtain ⟨t, ht⟩ := hl
        exact Or.inl ⟨t, by rw [h1, ht]; rfl⟩
      | inr hr =>
        obtain ⟨hq, hn, he⟩ := hr
        exact Or.inr ⟨by rw [h1, hq], hn, he⟩

/-- A nonempty path never equals the empty one. -/
theorem nil_ne_append_cons (p : List String) (nm : String) (t : List String) :
    ([] : List String) ≠ p ++ nm :: t := by
  intro h
  have := congrArg List.length h
  simp at this
  omega

/-- Processing one directory entry of the BFS queue neither changes any
content under a skip-matched name nor enqueues a path through it. -/
theorem processChildren_preserves (vars : Value) (pats : List String) (nm : String)
    (hnm : shouldBeSkipped nm pats = true) (p q : List String) :
    ∀ (cs : List FNode) (qp : List String) (tree : List FNode),
      (∀ t, qp ≠ p ++ nm :: t) →
      getContent (processChildren vars pats qp cs tree).1 (p ++ nm :: q) =
          getContent tree (p ++ nm :: q) ∧
      (∀ e ∈ (processChildren vars pats qp cs tree).2.1, ∀ t, e.1 ≠ p ++ nm :: t) := by
  intro cs
  induction cs with
  | nil =>
    intro qp tree hqp
    exact ⟨rfl, by intro e he; cases he⟩
  | cons c cs2 ih =>
    intro qp tree hqp
    by_cases hskip : shouldBeSkipped c.name pats
    · simpa [processChildren, hskip] using ih qp tree hqp
    · cases c with
      | file n tc =>
        simp only [FNode.name] at hskip
        have hwne : qp ++ [n] ≠ p ++ nm :: q := by
          intro heq
          cases append_singleton_eq_cases p qp nm n q heq with
          | inl hl => obtain ⟨t, ht⟩ := hl; exact hqp t ht
          | inr hr =>
            obtain ⟨_, hn, _⟩ := hr
            rw [hn] at hskip
            exact hskip hnm
        rcases hrender : render tree (qp ++ [n]) (qp ++ [n]) vars with ⟨tree2, err⟩
        have hpres : getContent tree2 (p ++ nm :: q) = getContent tree (p ++ nm :: q) := by
          have := @render_fst_preserves_ne tree (qp ++ [n]) (qp ++ [n]) vars
            (p ++ nm :: q) hwne.symm
          rw [hrender] at this
          exact this
        cases err with
        | none =>
          have hrec := ih qp tree2 hqp
          refine ⟨?_, ?_⟩
          · simp only [processChildren, FNode.name]
            rw [if_neg hskip, hrender]
            exact hrec.1.trans hpres
          · simp only [processChildren, FNode.name]
            rw [if_neg hskip, hrender]
            exact hrec.2
        | some e =>
          refine ⟨?_, ?_⟩
          · simp only [processChildren, FNode.name]
            rw [if_neg hskip, hrender]
            exact hpres
          · simp only [processChildren, FNode.name]
            rw [if_neg hskip, hrender]
            intro e2 he2
            cases he2
      | dir n kids =>
        simp only [FNode.name] at hskip
        have hrec := ih qp tree hqp
        refine ⟨?_, ?_⟩
        · simp only [processChildren, FNode.name]
          rw [if_neg hskip]
          exact hrec.1
        · simp only [processChildren, FNode.name]
          rw [if_neg hskip]
          intro e2 he2
          cases he2 with
          | head =>
            intro t heq
            cases append_singleton_eq_cases p qp nm n t heq with
            | inl hl => obtain ⟨t2, ht⟩ := hl; exact hqp t2 ht
            | inr hr =>
              obtain ⟨_, hn, _⟩ := hr
              rw [hn] at hskip
              exact hskip hnm
          | tail _ hmem => exact hrec.2 _ hmem

/-- The BFS loop never changes content under a skip-matched name, as long
as no queued path already passes through one. -/
theorem replaceLoop_preserves (vars : Value) (pats : List String) (nm : String)
    (hnm : shouldBeSkipped nm pats = true) (p q : List String) :
    ∀ (fuel : Nat) (queue : List (List String × List FNode)) (tree : List FNode),
      (∀ e ∈ queue, ∀ t, e.1 ≠ p ++ nm :: t) →
      getContent (replaceLoop vars pats fuel queue tree).1 (p ++ nm :: q) =
        getContent tree (p ++ nm :: q) := by
  intro fuel
  induction fuel with
  | zero => intro queue tree _; rfl
  | succ f ih =>
    intro queue tree hq
    cases queue with
    | nil => rfl
    | cons entry rest =>
      obtain ⟨path, cs⟩ := entry
      have hpath : ∀ t, path ≠ p ++ nm :: t := hq ⟨path, cs⟩ (List.mem_cons_self _ _)
      have hpc := processChildren_preserves vars pats nm hnm p q cs path tree hpath
      rcases hproc : processChildren vars pats path cs tree with ⟨tree2, es, err⟩
      rw [hproc] at hpc
      cases err with
      | none =>
        have hnext : ∀ e ∈ rest ++ es, ∀ t, e.1 ≠ p ++ nm :: t := by
          intro e he
          cases List.mem_append.mp he with
          | inl h1 => exact hq e (List.mem_cons_of_mem _ h1)
          | inr h2 => exact hpc.2 e h2
        have := ih (rest ++ es) tree2 hnext
        simp only [replaceLoop, hproc]
        exact this.trans hpc.1
      | some e =>
        simp only [replaceLoop, hproc]
        exact hpc.1

/-! Lemmas: Decimal representation lemmas -/

/-- Digit extraction of zero is empty for any fuel. -/
theorem natDigitsAux_zero : ∀ f : Nat, natDigitsAux f 0 = [] := by
  intro f
  cases f <;> rfl

/-- The digit extraction ignores its fuel as long as the fuel covers n. -/
theorem natDigitsAux_fuel_eq :
    ∀ (f1 f2 n : Nat), n ≤ f1 → n ≤ f2 → natDigitsAux f1 n = natDigitsAux f2 n := by
  intro f1
  induction f1 with
  | zero =>
    intro f2 n h1 _
    have : n = 0 := by omega
    subst this
    rw [natDigitsAux_zero, natDigitsAux_zero]
  | succ g1 ih =>
    intro f2 n h1 h2
    cases n with
    | zero => rw [natDigitsAux_zero, natDigitsAux_zero]
    | succ m =>
      cases f2 with
      | zero => omega
      | succ g2 =>
        simp only [natDigitsAux]
        congr 1
        have hdiv : (m + 1) / 10 ≤ m := by
          have := Nat.div_lt_self (Nat.succ_pos m) (by norm_num : 1 < 10)
          omega
        exact ih g2 ((m + 1) / 10) (by omega) (by omega)

/-- The number of extracted digits is at most k iff n is below 10 ^ k. -/
theorem natDigitsAux_length_le_iff :
    ∀ (n : Nat), 1 ≤ n → ∀ (f k : Nat), n ≤ f →
      ((natDigitsAux f n).length ≤ k ↔ n < 10 ^ k) := by
  intro n
  induction n using Nat.strong_induction_on with
  | _ n ihs =>
    intro hn f k hf
    cases n with
    | zero => omega
    | succ m =>
      cases f with
      | zero => omega
      | succ g =>
        simp only [natDigitsAux, List.length_cons]
        by_cases h10 : (m + 1) / 10 = 0
        · have hlt : m + 1 < 10 := (Nat.div_eq_zero_iff (by norm_num)).mp h10
          rw [h10, natDigitsAux_zero]
          cases k with
          | zero =>
            simp only [List.length_nil, pow_zero]
            omega
          | succ s =>
            have hpow : 10 ≤ 10 ^ (s + 1) := by
              calc 10 = 10 ^ 1 := (pow_one 10).symm
              _ ≤ 10 ^ (s + 1) := Nat.pow_le_pow_right (by norm_num) (by omega)
            simp only [List.length_nil]
            constructor
            · intro _; omega
            · intro _; omega
        · have hpos : 1 ≤ (m + 1) / 10 := Nat.one_le_iff_ne_zero.mpr h10
          have hlt : (m + 1) / 10 < m + 1 :=
            Nat.div_lt_self (Nat.succ_pos m) (by norm_num : 1 < 10)
          have hle : (m + 1) / 10 ≤ g := by omega
          cases k with
          | zero =>
            simp only [pow_zero]
            omega
          | succ s =>
            have hih := ihs ((m + 1) / 10) hlt hpos g s hle
            constructor
            · intro h
              have : (natDigitsAux g ((m + 1) / 10)).length ≤ s := by omega
              have hdiv := hih.mp this
              have := (Nat.div_lt_iff_lt_mul (by norm_num : 0 < 10)).mp hdiv
              calc m + 1 < 10 ^ s * 10 := this
              _ = 10 ^ (s + 1) := (pow_succ 10 s).symm
            · intro h
              have : m + 1 < 10 ^ s * 10 := by
                calc m + 1 < 10 ^ (s + 1) := h
                _ = 10 ^ s * 10 := pow_succ 10 s
              have hdiv := (Nat.div_lt_iff_lt_mul (by norm_num : 0 < 10)).mpr this
              have := hih.mpr hdiv
              omega

/-- The length of the decimal representation is at most k iff n < 10 ^ k. -/
theorem pyNatRepr_length_le_iff (n : Nat) (hn : 1 ≤ n) (k : Nat) :
    ((pyNatRepr n).length ≤ k ↔ n < 10 ^ k) := by
  unfold pyNatRepr
  rw [if_neg (by omega)]
  have hlen : (String.mk (natDigitsAux n n).reverse).length = (natDigitsAux n n).length := by
    show (natDigitsAux n n).reverse.length = _
    exact List.length_reverse _
  rw [hlen]
  exact natDigitsAux_length_le_iff n hn n k (le_refl n)

/-- Length of format(n, "0k"): the padding target or the representation
length, whichever is larger. -/
theorem pyFormatZeroPad_length (n k : Nat) :
    (pyFormatZeroPad n k).length = max k (pyNatRepr n).length := by
  unfold pyFormatZeroPad
  by_cases h : (pyNatRepr n).length < k
  · rw [if_pos h, String.length_append]
    have hrep : (String.mk (List.replicate (k - (pyNatRepr n).length) '0')).length
        = k - (pyNatRepr n).length := by
      show (List.replicate (k - (pyNatRepr n).length) '0').length = _
      exact List.length_replicate _ _
    rw [hrep, Nat.max_eq_left (by omega)]
    omega
  · rw [if_neg h, Nat.max_eq_right (by omega)]

/-- When the representation is already wide enough, no padding happens. -/
theorem pyFormatZeroPad_eq_repr {n k : Nat} (h : k ≤ (pyNatRepr n).length) :
    pyFormatZeroPad n k = pyNatRepr n := by
  unfold pyFormatZeroPad
  rw [if_neg (by omega)]

/-! Lemmas: Number inference lemmas -/

/-- The k-digit test, written as a conjunction. -/
theorem starts_with_k_digits_iff (nm : String) (k : Nat) :
    _starts_with_k_digits nm k =
      (decide (k ≤ nm.data.length) && (nm.data.take k).all Char.isDigit) := by
  unfold _starts_with_k_digits
  by_cases h : nm.data.length < k
  · rw [if_pos h, decide_eq_false (by omega : ¬ (k ≤ nm.data.length)), Bool.false_and]
  · rw [if_neg h, decide_eq_true (by omega : k ≤ nm.data.length), Bool.true_and]

/-- mapM over Except succeeds pointwise when every element succeeds. -/
theorem mapM_ok_of_forall {α β : Type} (f : α → Except String β) (g : α → β) :
    ∀ (l : List α), (∀ a ∈ l, f a = Except.ok (g a)) →
      l.mapM f = Except.ok (l.map g) := by
  intro l
  induction l with
  | nil => intro _; rw [List.mapM_nil]; rfl
  | cons a l2 ih =>
    intro h
    rw [List.mapM_cons, h a (List.mem_cons_self _ _),
      ih (fun b hb => h b (List.mem_cons_of_mem _ hb))]
    rfl

/-- The source pipeline over directory names computes the claim-side
qualifying numbers. -/
theorem qualNums_pipeline_eq (k : Nat) :
    ∀ (children : List FNode),
      ((((children.filter FNode.isDir).map FNode.name).filter
          (fun n => _starts_with_k_digits n k)).map
        (fun n => (n.data.take k).foldl (fun acc ch => acc * 10 + (ch.toNat - 48)) 0))
      = claimQualNums children k := by
  intro children
  unfold claimQualNums
  induction children with
  | nil => rfl
  | cons c cs ih =>
    cases hd : FNode.isDir c with
    | true =>
      cases hs : _starts_with_k_digits c.name k with
      | true =>
        have hpred : (FNode.isDir c && decide (k ≤ c.name.data.length)
            && (c.name.data.take k).all Char.isDigit) = true := by
          have h2 := starts_with_k_digits_iff c.name k
          rw [hs] at h2
          rw [Bool.and_assoc, hd, Bool.true_and, ← h2]
        rw [List.filter_cons, if_pos hd, List.map_cons, List.filter_cons, if_pos hs,
          List.map_cons, List.filter_cons, if_pos hpred, List.map_cons, ih]
      | false =>
        have hpred : (FNode.isDir c && decide (k ≤ c.name.data.length)
            && (c.name.data.take k).all Char.isDigit) = false := by
          have h2 := starts_with_k_digits_iff c.name k
          rw [hs] at h2
          rw [Bool.and_assoc, ← h2, Bool.and_false]
        rw [List.filter_cons, if_pos hd, List.map_cons, List.filter_cons,
          if_neg (by show ¬ (_starts_with_k_digits c.name k = true); rw [hs]; exact Bool.false_ne_true),
          List.filter_cons,
          if_neg (by rw [hpred]; exact Bool.false_ne_true), ih]
    | false =>
      have hpred : (FNode.isDir c && decide (k ≤ c.name.data.length)
          && (c.name.data.take k).all Char.isDigit) = false := by
        rw [Bool.and_assoc, hd, Bool.false_and]
      rw [List.filter_cons, if_neg (by rw [hd]; exact Bool.false_ne_true), List.filter_cons,
        if_neg (by rw [hpred]; exact Bool.false_ne_true), ih]

/-- The accumulator is below a maximum fold. -/
theorem le_foldl_max : ∀ (l : List Nat) (a : Nat), a ≤ l.foldl Nat.max a := by
  intro l
  induction l with
  | nil => intro a; exact le_refl a
  | cons b l2 ih =>
    intro a
    exact le_trans (Nat.le_max_left a b) (ih (Nat.max a b))

/-- Every member is below a maximum fold. -/
theorem mem_le_foldl_max : ∀ (l : List Nat) (a x : Nat), x ∈ l → x ≤ l.foldl Nat.max a := by
  intro l
  induction l with
  | nil => intro a x h; cases h
  | cons b l2 ih =>
    intro a x h
    cases h with
    | head => exact le_trans (Nat.le_max_right a b) (le_foldl_max l2 (Nat.max a b))
    | tail _ hm => exact ih (Nat.max a b) x hm

/-- A maximum fold returns the accumulator or a member. -/
theorem foldl_max_choice : ∀ (l : List Nat) (a : Nat),
    l.foldl Nat.max a = a ∨ l.foldl Nat.max a ∈ l := by
  intro l
  induction l with
  | nil => intro a; exact Or.inl rfl
  | cons b l2 ih =>
    intro a
    cases ih (Nat.max a b) with
    | inl h =>
      have : Nat.max a b = a ∨ Nat.max a b = b := by
        rcases Nat.le_total a b with hab | hab
        · exact Or.inr (Nat.max_eq_right hab)
        · exact Or.inl (Nat.max_eq_left hab)
      cases this with
      | inl h2 => exact Or.inl (by rw [List.foldl_cons, h, h2])
      | inr h2 => exact Or.inr (by rw [List.foldl_cons, h, h2]; exact List.mem_cons_self _ _)
    | inr h => exact Or.inr (List.mem_cons_of_mem _ (by rw [List.foldl_cons]; exact h))

/-- The next number is always positive. -/
theorem claimNextNumber_pos (children : List FNode) (k : Nat) :
    1 ≤ claimNextNumber children k := by
  unfold claimNextNumber
  split <;> omega

/-- For a positive width the source inference never raises and computes
the claim-side next number, formatted with zero padding of width k. -/
theorem infer_eq_claimNext (children : List FNode) (k : Nat) (hk : 1 ≤ k) :
    infer_next_project_number children (some k) =
      Except.ok (some (pyFormatZeroPad (claimNextNumber children k) k)) := by
  have hall : ∀ n ∈ ((children.filter FNode.isDir).map FNode.name).filter
      (fun n => _starts_with_k_digits n k),
      pyIntOfDigits (n.data.take k) =
        Except.ok ((n.data.take k).foldl (fun acc ch => acc * 10 + (ch.toNat - 48)) 0) := by
    intro n hn
    have hs : _starts_with_k_digits n k = true := (List.mem_filter.mp hn).2
    rw [starts_with_k_digits_iff] at hs
    have hlen : k ≤ n.data.length := by
      have hd := ((Bool.and_eq_true _ _).mp hs).1
      exact of_decide_eq_true hd
    have hlen2 : (n.data.take k).length = k := by
      rw [List.length_take]
      omega
    cases htk : n.data.take k with
    | nil =>
      rw [htk] at hlen2
      simp at hlen2
      omega
    | cons a l2 =>
      rfl
  simp only [infer_next_project_number]
  rw [mapM_ok_of_forall _ _ _ hall, qualNums_pipeline_eq]
  rfl

/-- existsName finds a directory appended at the end. -/
theorem existsName_append_self (l : List FNode) (n : String) (c2 : List FNode) :
    existsName (l ++ [FNode.dir n c2]) n = true := by
  unfold existsName
  rw [List.any_append]
  have : (FNode.dir n c2).name == n := by simp [FNode.name]
  simp [this]

/-! Claim theorems and witnesses -/

/-- C1: the claim says the cli removes any partially created destination
on a non-destination-exists failure, for every argument combination
including numbering.  The code evaluates otherwise: with numbering 3 and
project name foo, a rendering failure leaves the partial destination
001-foo in place, because the cleanup checks and removes only the bare
cwd/foo path. -/
theorem cli_numbered_failure_keeps_partial_destination :
    cli [] (some [FNode.file "f" [Item.var ["missing"]]]) "foo" (some 3)
        Option.none Option.none
      = ([FNode.dir "001-foo" [FNode.file "f" []]],
         CliOutcome.raised (PyErr.runtimeError
           "Problem replacing in f: missing is undefined")) ∧
    existsName (cli [] (some [FNode.file "f" [Item.var ["missing"]]]) "foo" (some 3)
        Option.none Option.none).1 "001-foo" = true := by
  have h : cli [] (some [FNode.file "f" [Item.var ["missing"]]]) "foo" (some 3)
      Option.none Option.none
      = ([FNode.dir "001-foo" [FNode.file "f" []]],
         CliOutcome.raised (PyErr.runtimeError
           "Problem replacing in f: missing is undefined")) := by
    simp only [cli, make_project, replace, nodesSize]
    rfl
  exact ⟨h, by rw [h]; rfl⟩

/-- C2, counterexample: with skip pattern bin, the traversal does NOT
descend into directory bin; its nested file inner, which matches no
pattern, keeps its unrendered contents even though rendering it would
have produced the string x. -/
theorem replace_skipped_dir_not_descended_counterexample :
    replace [FNode.dir "bin" [FNode.file "inner" [Item.var ["project", "name"]]]]
        (Value.dict [("project", Value.dict [("name", Value.str "x")])])
        (some ["bin"])
      = ([FNode.dir "bin" [FNode.file "inner" [Item.var ["project", "name"]]]],
         Option.none) ∧
    renderTemplate [Item.var ["project", "name"]]
        (Value.dict [("project", Value.dict [("name", Value.str "x")])])
      = Except.ok "x" := by
  constructor
  · simp only [replace, nodesSize]
    rfl
  · rfl

/-- C2, amended: skipping prunes directories.  Content at any path that
passes through a component matching a skip pattern is left completely
unchanged by replace: a matching file is not rendered, and a matching
directory is never descended into. -/
theorem replace_prunes_skipped_directories (vars : Value) (pats : List String)
    (nm : String) (hnm : shouldBeSkipped nm pats = true)
    (tree : List FNode) (p q : List String) :
    getContent (replace tree vars (some pats)).1 (p ++ nm :: q) =
      getContent tree (p ++ nm :: q) := by
  refine replaceLoop_preserves vars pats nm hnm p q (nodesSize tree + 1)
    [([], tree)] tree ?_
  intro e he t
  cases he with
  | head => exact nil_ne_append_cons p nm t
  | tail _ h2 => cases h2

/-- C2, witness for the amended theorem at a concrete input. -/
theorem replace_prunes_skipped_directories_witness :
    shouldBeSkipped "bin" ["bin"] = true ∧
    getContent (replace [FNode.dir "bin" [FNode.file "inner" [Item.lit "hello"]]]
        (Value.dict []) (some ["bin"])).1 ["bin", "inner"] =
      getContent [FNode.dir "bin" [FNode.file "inner" [Item.lit "hello"]]]
        ["bin", "inner"] :=
  ⟨rfl, replace_prunes_skipped_directories (Value.dict []) ["bin"] "bin" rfl
    [FNode.dir "bin" [FNode.file "inner" [Item.lit "hello"]]] [] ["inner"]⟩

/-- C3, counterexample: the claim asserts the result has exactly K
characters for every directory and width, and that a result is always
returned.  With width 1 and a sibling directory 9 the next number is 10
and the returned string 10 has two characters; with width 0 and any
subdirectory, inference raises ValueError from int of an empty slice
instead of returning. -/
theorem infer_exactly_k_chars_counterexample :
    (infer_next_project_number [FNode.dir "9" []] (some 1) = Except.ok (some "10") ∧
      ¬ ("10" : String).length = 1) ∧
    infer_next_project_number [FNode.dir "a" []] (some 0) =
      Except.error "invalid literal for int with base 10" :=
  ⟨⟨rfl, by decide⟩, rfl⟩

/-- C3, amended: for every directory and every width K of at least one,
inference returns the claim-side next number (the maximum of the parsed
K-character prefixes of qualifying children plus one, or one when none
qualifies) formatted as a decimal string left-padded with zeros to at
least K characters, and to exactly K characters whenever the number is
below 10 ^ K. -/
theorem infer_next_number_spec (children : List FNode) (k : Nat) (hk : 1 ≤ k) :
    infer_next_project_number children (some k) =
      Except.ok (some (pyFormatZeroPad (claimNextNumber children k) k)) ∧
    k ≤ (pyFormatZeroPad (claimNextNumber children k) k).length ∧
    (claimNextNumber children k < 10 ^ k →
      (pyFormatZeroPad (claimNextNumber children k) k).length = k) ∧
    (claimQualNums children k = [] → claimNextNumber children k = 1) ∧
    (claimQualNums children k ≠ [] →
      ∃ m ∈ claimQualNums children k, claimNextNumber children k = m + 1 ∧
        ∀ x ∈ claimQualNums children k, x ≤ m) := by
  refine ⟨infer_eq_claimNext children k hk, ?_, ?_, ?_, ?_⟩
  · rw [pyFormatZeroPad_length]
    exact Nat.le_max_left _ _
  · intro hlt
    have hpos := claimNextNumber_pos children k
    have hlen : (pyNatRepr (claimNextNumber children k)).length ≤ k :=
      (pyNatRepr_length_le_iff _ hpos k).mpr hlt
    rw [pyFormatZeroPad_length, Nat.max_eq_left hlen]
  · intro hempty
    unfold claimNextNumber
    rw [hempty]
    rfl
  · intro hne
    have hfalse : (claimQualNums children k).isEmpty = false := by
      cases hq : claimQualNums children k with
      | nil => exact absurd hq hne
      | cons a l => rfl
    have heq : claimNextNumber children k =
        (claimQualNums children k).foldl Nat.max 0 + 1 := by
      unfold claimNextNumber
      rw [hfalse]
      rfl
    refine ⟨(claimQualNums children k).foldl Nat.max 0, ?_, heq, ?_⟩
    · cases foldl_max_choice (claimQualNums children k) 0 with
      | inr h => exact h
      | inl h0 =>
        cases hq : claimQualNums children k with
        | nil => exact absurd hq hne
        | cons b l =>
          rw [hq] at h0
          have hble : b ≤ List.foldl Nat.max 0 (b :: l) :=
            mem_le_foldl_max _ 0 b (List.mem_cons_self _ _)
          rw [h0] at hble
          have hb0 : b = 0 := by omega
          subst hb0
          rw [h0]
          exact List.mem_cons_self _ _
    · intro x hx
      exact mem_le_foldl_max _ 0 x hx

/-- C3, witness for the amended theorem at a concrete input. -/
theorem infer_next_number_spec_witness :
    1 ≤ 3 ∧ infer_next_project_number [] (some 3) = Except.ok (some "001") := by
  refine ⟨by decide, ?_⟩
  rw [(infer_next_number_spec [] 3 (by decide)).1]
  rfl

/-- C9: when the computed next number reaches 10 ^ K, inference does not
raise; it returns the full decimal representation, a string wider than K
characters. -/
theorem infer_overflow_wider_string (children : List FNode) (k : Nat) (hk : 1 ≤ k)
    (hover : 10 ^ k ≤ claimNextNumber children k) :
    infer_next_project_number children (some k) =
      Except.ok (some (pyNatRepr (claimNextNumber children k))) ∧
    k < (pyNatRepr (claimNextNumber children k)).length := by
  have hpos := claimNextNumber_pos children k
  have hlen : ¬ ((pyNatRepr (claimNextNumber children k)).length ≤ k) := by
    rw [pyNatRepr_length_le_iff _ hpos k]
    omega
  constructor
  · rw [infer_eq_claimNext children k hk, pyFormatZeroPad_eq_repr (by omega)]
  · omega

/-- C9, witness at width 1 with a sibling directory named 9. -/
theorem infer_overflow_wider_string_witness :
    1 ≤ 1 ∧ 10 ^ 1 ≤ claimNextNumber [FNode.dir "9" []] 1 ∧
    infer_next_project_number [FNode.dir "9" []] (some 1) =
      Except.ok (some (pyNatRepr (claimNextNumber [FNode.dir "9" []] 1))) ∧
    1 < (pyNatRepr (claimNextNumber [FNode.dir "9" []] 1)).length := by
  have h := infer_overflow_wider_string [FNode.dir "9" []] 1 (by decide) (by decide)
  exact ⟨by decide, by decide, h.1, h.2⟩

/-- C4: rendering a template with a reference to a variable or nested key
absent from the mapping fails (no blank substituted: the file receives no
rendered output, only the truncation of opening for write), and the error
message names the offending file path and the underlying cause. -/
theorem render_fails_on_undefined_variable (tree : List FNode) (src dst : List String)
    (vars : Value) (tpl : Template) (p : List String) (m : String)
    (hsrc : getContent tree src = some tpl)
    (hmem : Item.var p ∈ tpl)
    (hundef : lookupVar vars p = Except.error m) :
    ∃ cause, renderTemplate tpl vars = Except.error cause ∧
      render tree src dst vars =
        (setContent tree dst [],
         some ("Problem replacing in " ++ pathStr src ++ ": " ++ cause)) := by
  obtain ⟨cause, hc⟩ := renderTemplate_error_of_mem tpl vars p m hmem hundef
  exact ⟨cause, hc, render_error_eq hsrc hc⟩

/-- C4, witness at a concrete template with one undefined reference. -/
theorem render_fails_on_undefined_variable_witness :
    ∃ cause, renderTemplate [Item.var ["missing"]] (Value.dict []) = Except.error cause ∧
      render [FNode.file "f" [Item.var ["missing"]]] ["f"] ["f"] (Value.dict []) =
        (setContent [FNode.file "f" [Item.var ["missing"]]] ["f"] [],
         some ("Problem replacing in " ++ pathStr ["f"] ++ ": " ++ cause)) :=
  render_fails_on_undefined_variable _ _ _ _ _ _ _ rfl (List.Mem.head _) rfl

/-- C10: in-place rendering is not atomic.  The destination is opened for
writing, truncating it, before the template is evaluated, so when
rendering fails on an undefined variable the old contents are lost and
the file is left empty. -/
theorem render_in_place_truncates_on_failure (tree : List FNode) (p : List String)
    (vars : Value) (tpl : Template) (cause : String)
    (hsrc : getContent tree p = some tpl)
    (herr : renderTemplate tpl vars = Except.error cause) :
    render tree p p vars =
      (setContent tree p [],
       some ("Problem replacing in " ++ pathStr p ++ ": " ++ cause)) ∧
    getContent (render tree p p vars).1 p = some [] := by
  have h := @render_error_eq tree p p vars tpl cause hsrc herr
  refine ⟨h, ?_⟩
  rw [h]
  exact getContent_setContent_self p tree [] tpl hsrc

/-- C10, witness at a concrete in-place failing render. -/
theorem render_in_place_truncates_on_failure_witness :
    render [FNode.file "g" [Item.var ["x"]]] ["g"] ["g"] (Value.dict []) =
      (setContent [FNode.file "g" [Item.var ["x"]]] ["g"] [],
       some ("Problem replacing in " ++ pathStr ["g"] ++ ": " ++ "x is undefined")) ∧
    getContent (render [FNode.file "g" [Item.var ["x"]]] ["g"] ["g"]
        (Value.dict [])).1 ["g"] = some [] :=
  render_in_place_truncates_on_failure _ _ _ _ _ rfl rfl

/-- C6: when the template directory does not exist, make_project raises
the template-not-found ValueError before any filesystem mutation: the
returned state equals the input state, so no destination is created. -/
theorem make_project_missing_template (cwd : List FNode) (project_name : String)
    (context : Option Value) (numbering : Option Nat)
    (no_replace : Option (List String)) :
    make_project cwd Option.none project_name context numbering no_replace
      = (cwd, some (PyErr.valueError "Template does not exist.")) := rfl

/-- C7: with a null width, inference returns null, and the result does not
depend on the directory contents at all: the filesystem is not read. -/
theorem infer_next_number_none_width (children : List FNode) :
    infer_next_project_number children Option.none = Except.ok Option.none ∧
    ∀ other : List FNode,
      infer_next_project_number children Option.none =
        infer_next_project_number other Option.none :=
  ⟨rfl, fun _ => rfl⟩

/-- C5: if a first invocation of make_project with no numbering succeeds,
invoking it again with the same arguments fails with the distinct
FileExistsError naming the destination, and leaves the first invocation
output untouched. -/
theorem make_project_twice_fails_distinctly (cwd tmpl : List FNode)
    (project_name : String) (context : Option Value)
    (no_replace : Option (List String)) (cwd2 : List FNode)
    (h1 : make_project cwd (some tmpl) project_name context Option.none no_replace
        = (cwd2, Option.none)) :
    make_project cwd2 (some tmpl) project_name context Option.none no_replace
      = (cwd2, some (PyErr.fileExistsError project_name)) := by
  simp only [make_project, infer_next_project_number, destinationName] at h1 ⊢
  by_cases hex : existsName cwd project_name = true
  · rw [if_pos hex] at h1
    cases h1
  · rw [if_neg hex] at h1
    rcases hrep : replace tmpl
        (Value.dict [("context", context.getD (Value.dict [])),
          ("project", Value.dict [("number", optStrValue Option.none),
            ("name", Value.str project_name)])]) no_replace with ⟨c2, err⟩
    rw [hrep] at h1
    cases err with
    | some e => cases h1
    | none =>
      have hcwd2 : cwd2 = cwd ++ [FNode.dir project_name c2] := by
        have := congrArg Prod.fst h1
        exact this.symm
      rw [if_pos (by rw [hcwd2]; exact existsName_append_self cwd project_name c2)]

/-- C5, witness: creating foo into an empty cwd and then again. -/
theorem make_project_twice_fails_distinctly_witness :
    make_project [FNode.dir "foo" []] (some []) "foo" Option.none Option.none
        Option.none
      = ([FNode.dir "foo" []], some (PyErr.fileExistsError "foo")) :=
  make_project_twice_fails_distinctly [] [] "foo" Option.none Option.none
    [FNode.dir "foo" []]
    (by simp only [make_project, replace, nodesSize]; rfl)

/-- C8: the destination of make_project is cwd joined with number-name
when numbering produced a number, else cwd joined with the bare project
name; the directory created there holds the (rendered) template copy,
whether or not rendering then failed. -/
theorem make_project_destination_name (cwd tmpl : List FNode)
    (project_name : String) (context : Option Value) (numbering : Option Nat)
    (no_replace : Option (List String)) (pn : Option String)
    (hinfer : infer_next_project_number cwd numbering = Except.ok pn)
    (hfree : existsName cwd (destinationName pn project_name) = false) :
    ∃ c2 e, make_project cwd (some tmpl) project_name context numbering no_replace
      = (cwd ++ [FNode.dir (destinationName pn project_name) c2], e) := by
  simp only [make_project, hinfer]
  rw [if_neg (by rw [hfree]; exact Bool.false_ne_true)]
  rcases hrep : replace tmpl
      (Value.dict [("context", context.getD (Value.dict [])),
        ("project", Value.dict [("number", optStrValue pn),
          ("name", Value.str project_name)])]) no_replace with ⟨c2, err⟩
  cases err with
  | none => exact ⟨c2, Option.none, rfl⟩
  | some e => exact ⟨c2, some (PyErr.runtimeError e), rfl⟩

/-- C8, witness: numbering width 3 in an empty cwd yields 001-foo. -/
theorem make_project_destination_name_witness :
    infer_next_project_number [] (some 3) = Except.ok (some "001") ∧
    existsName [] (destinationName (some "001") "foo") = false ∧
    ∃ c2 e, make_project [] (some []) "foo" Option.none (some 3) Option.none
      = ([FNode.dir "001-foo" c2], e) := by
  refine ⟨rfl, rfl, ?_⟩
  obtain ⟨c2, e, h⟩ := make_project_destination_name [] [] "foo" Option.none (some 3)
    Option.none (some "001") rfl rfl
  rw [List.nil_append] at h
  exact ⟨c2, e, h⟩
